import Mathlib

/-!
Verification of the hybrid semantic retrieval engine of the Gisul community
portal (`backend/services/vector_store.py`, `backend/services/embeddings.py`).

Shallow embedding conventions:
* Python floats are modelled as rationals (`ℚ`); the claims under study are
  interval bounds and counting facts that do not depend on IEEE rounding.
* Texts are `String`; SHA-256 content hashes are modelled by keying caches on
  the text itself (the hash is injective for the purposes of the cache).
* External collaborators (the OpenAI embedding / chat-completion provider,
  MongoDB, the FAISS nearest-neighbour retrieval itself) are oracle
  parameters: a provider is a function `String → Vec`, a FAISS search result
  is a list of `(slot, inner-product)` pairs, a MongoDB prefilter outcome is
  the list of ids it produced.
* `round2` models Python's `round(x, 2)`; Python uses round-half-to-even
  while `round2` rounds half up, a difference of at most one tie point that
  is irrelevant to every bound proved below.
-/

namespace VectorStore

/-- Embedding vectors are opaque lists of rationals. -/
abbrev Vec := List ℚ

/-- `max lo (min hi x)`: the clamping idiom used throughout the scoring code
(`max(lo, min(hi, x))`). -/
def clampQ (lo hi x : ℚ) : ℚ := max lo (min hi x)

/-- Python's `round(x, 2)` (up to the half-tie convention, see the file
header). -/
def round2 (x : ℚ) : ℚ := (⌊x * 100 + 1/2⌋ : ℤ) / 100

/-- Python `str.lower()` (ASCII case folding; character-level so that proofs
can evaluate it). -/
def pyLower (s : String) : String := String.mk (s.data.map Char.toLower)

/-- Python `str.strip()`: drop leading and trailing whitespace. -/
def pyStrip (s : String) : String :=
  String.mk
    (((s.data.dropWhile Char.isWhitespace).reverse.dropWhile
      Char.isWhitespace).reverse)

/-- `s.lower().strip()` as written at the call sites that lower first. -/
def pyLowerStrip (s : String) : String := pyStrip (pyLower s)

/-- `s.strip().lower()` as written at the call sites that strip first. -/
def pyStripLower (s : String) : String := pyLower (pyStrip s)

/-- Does `needle` start `hay`? (helper for the substring test). -/
def startsWithL : List Char → List Char → Bool
  | [], _ => true
  | _ :: _, [] => false
  | a :: as, b :: bs => a == b && startsWithL as bs

/-- Does `needle` occur somewhere in `hay`? (helper for the substring
test). -/
def occursInL (needle : List Char) : List Char → Bool
  | [] => needle.isEmpty
  | c :: rest => startsWithL needle (c :: rest) || occursInL needle rest

/-- Python substring test `needle in hay` (`"" in s` is `True`). -/
def containsSub (hay needle : String) : Bool :=
  if needle = "" then true else occursInL needle.data hay.data

/-- Helper of `pyWords`: split a character list on whitespace runs,
accumulating the (reversed) current word. -/
def splitWsAux : List Char → List Char → List String
  | cur, [] => if cur.isEmpty then [] else [String.mk cur.reverse]
  | cur, c :: rest =>
    if c.isWhitespace then
      if cur.isEmpty then splitWsAux [] rest
      else String.mk cur.reverse :: splitWsAux [] rest
    else splitWsAux (c :: cur) rest

/-- Python `str.split()` with no separator: whitespace-delimited words,
no empty strings. -/
def pyWords (s : String) : List String := splitWsAux [] s.data

/-- Python `{str(s).strip().lower() for s in xs if s}`: drop falsy entries,
normalise, and deduplicate (the list stands for the resulting set; `dedup`
keeps one occurrence per distinct element). -/
def normTermSet (xs : List String) : List String :=
  ((xs.filter (fun s => s ≠ "")).map (fun s => pyStripLower s)).dedup

/-!
### Single-vector FAISS scoring path

`perform_faiss_search` (vector_store.py lines 1133–1298): per returned entry
the code computes a base score from the clamped cosine similarity plus four
additive bonuses, caps at 100, then applies two floor-raising boosts
(lines 1261–1277).
-/

/-- Skill-overlap bonus of `perform_faiss_search` (lines 1220–1230):
`len(expanded_set ∩ profile_terms) / len(expanded_skills) * 80`, and `0`
when `expanded_skills` is falsy. -/
def faissOverlapBonus (expandedSkills skills domains : List String) : ℚ :=
  if expandedSkills = [] then 0
  else
    (((normTermSet expandedSkills).filter
        (fun s => s ∈ (normTermSet skills ++ normTermSet domains).dedup)).length : ℚ)
      / (expandedSkills.length : ℚ) * 80

/-- `mandatory_skill.lower().strip() if mandatory_skill else None`
(line 1184). -/
def mandatoryLower (mandatorySkill : Option String) : Option String :=
  match mandatorySkill with
  | some m => if m = "" then none else some (pyLowerStrip m)
  | none => none

/-- Mandatory-skill bonus of `perform_faiss_search` (lines 1232–1240): `35`
when the (truthy) lowered mandatory skill is a member of, or a substring of
a member of, the profile's combined skill/domain terms. The source tests
substring membership twice over the same combined set; one test suffices. -/
def faissMandatoryBonus (mandatorySkill : Option String)
    (skills domains : List String) : ℚ :=
  match mandatoryLower mandatorySkill with
  | none => 0
  | some ml =>
    if ml = "" then 0
    else if ml ∈ (normTermSet skills ++ normTermSet domains).dedup ∨
        ((normTermSet skills ++ normTermSet domains).dedup).any
          (fun s => containsSub s ml) then 35
    else 0

/-- Experience boost (line 1244):
`min(20.0, experience_years * 2.0) if experience_years else 0.0`, where
`experience_years` is `metadata.get("experience_years") or 0`. -/
def faissExperienceBoost (experienceYears : ℚ) : ℚ :=
  if experienceYears = 0 then 0 else min 20 (experienceYears * 2)

/-- Base-score boost (lines 1248–1259). -/
def faissBaseScoreBoost (similarity : ℚ) : ℚ :=
  if similarity > 3/10 then min 60 ((similarity - 3/10) * 150)
  else if similarity > 2/10 then 20
  else if similarity > 1/10 then 15
  else 0

/-- `similarity = max(-1.0, min(1.0, raw_score))` (line 1204). -/
def faissSimilarity (rawScore : ℚ) : ℚ := max (-1) (min 1 rawScore)

/-- `final_score = min(100.0, base + overlap + mandatory + experience + boost)`
(line 1262), where `base_score = round(similarity * 100.0, 2)` (line 1207). -/
def faissFinal0 (rawScore : ℚ) (expandedSkills skills domains : List String)
    (mandatorySkill : Option String) (experienceYears : ℚ) : ℚ :=
  min 100 (round2 (faissSimilarity rawScore * 100)
    + faissOverlapBonus expandedSkills skills domains
    + faissMandatoryBonus mandatorySkill skills domains
    + faissExperienceBoost experienceYears
    + faissBaseScoreBoost (faissSimilarity rawScore))

/-- Floor-raising boost of lines 1267–1270: any score under 75 becomes
`min(100, max(75, score + 15))`. -/
def faissFinal1 (rawScore : ℚ) (expandedSkills skills domains : List String)
    (mandatorySkill : Option String) (experienceYears : ℚ) : ℚ :=
  if faissFinal0 rawScore expandedSkills skills domains mandatorySkill
      experienceYears < 75 then
    min 100 (max 75 (faissFinal0 rawScore expandedSkills skills domains
      mandatorySkill experienceYears + 15))
  else faissFinal0 rawScore expandedSkills skills domains mandatorySkill
    experienceYears

/-- Skill-match boost of lines 1273–1276: a score under 80 with a positive
overlap or mandatory bonus becomes `min(100, max(80, score + 10))`. -/
def faissFinal2 (rawScore : ℚ) (expandedSkills skills domains : List String)
    (mandatorySkill : Option String) (experienceYears : ℚ) : ℚ :=
  if (faissOverlapBonus expandedSkills skills domains > 0 ∨
      faissMandatoryBonus mandatorySkill skills domains > 0) ∧
      faissFinal1 rawScore expandedSkills skills domains mandatorySkill
        experienceYears < 80 then
    min 100 (max 80 (faissFinal1 rawScore expandedSkills skills domains
      mandatorySkill experienceYears + 10))
  else faissFinal1 rawScore expandedSkills skills domains mandatorySkill
    experienceYears

/-- Final score of one `perform_faiss_search` result entry
(lines 1202–1277): clamped similarity, base score plus four bonuses capped
at 100, the two floor-raising boosts, and rounding to two decimals
(`score = round(final_score, 2)`, line 1277). -/
def faissEntryScore (rawScore : ℚ) (expandedSkills skills domains : List String)
    (mandatorySkill : Option String) (experienceYears : ℚ) : ℚ :=
  round2 (faissFinal2 rawScore expandedSkills skills domains mandatorySkill
    experienceYears)

/-!
### Multi-vector hierarchical scoring path

`search_multi_vector` (vector_store.py lines 2900–3008): the per-profile
final score blends five component scores with fixed weights, adds three
small bonuses, clamps to `[0, 100]` (line 3002) and rounds (line 3008).
-/

/-- Weighted blend plus bonuses of `search_multi_vector` (lines 2983–2999):
`base_faiss_similarity` is the hierarchical score clamped to `[0, 100]`
(line 2917); two skill-alignment bonuses and one domain bonus are added on
top of the weighted sum. -/
def multiVectorRawScore (hierarchical skillAlign titleAlign domainSim
    chunkRelevance : ℚ) : ℚ :=
  let baseFaiss := max 0 (min 100 hierarchical)
  let f0 := baseFaiss * (45/100) + skillAlign * (25/100)
    + titleAlign * (18/100) + domainSim * (10/100) + chunkRelevance * (2/100)
  let f1 := if skillAlign > 70 then f0 + 5 else f0
  let f2 := if skillAlign > 85 then f1 + 5 else f1
  if domainSim ≥ 100 then f2 + 3 else f2

/-- Per-profile final score of `search_multi_vector` (lines 2911–2917 and
2981–3008): the blended score clamped to `[0, 100]` (line 3002) and rounded
to two decimals (line 3008). -/
def multiVectorProfileScore (hierarchical skillAlign titleAlign domainSim
    chunkRelevance : ℚ) : ℚ :=
  round2 (max 0 (min 100 (multiVectorRawScore hierarchical skillAlign
    titleAlign domainSim chunkRelevance)))

end VectorStore

namespace Embeddings

open VectorStore

/-!
### Embedding service (`backend/services/embeddings.py`)

`EMBEDDING_CACHE` is an insertion-ordered Python dict keyed by the SHA-256
hash of the text; it is modelled as an insertion-ordered list keyed by the
text itself. Timestamps are in hours (`datetime.utcnow()` differences are
compared against `timedelta(hours=CACHE_TTL_HOURS)`). The external provider
is a function `String → Vec` standing for one item of the batched API
response composed with the per-item normalisation of lines 151–153 (all
callers in this repository use `normalize=True`).
-/

/-- One `EMBEDDING_CACHE` slot: `{text_hash: (embedding, timestamp)}`. -/
structure CacheEntry where
  key : String
  vec : Vec
  stamp : ℕ
deriving DecidableEq

abbrev Cache := List CacheEntry

/-- `CACHE_TTL_HOURS = 24 * 30` (embeddings.py line 27). -/
def CACHE_TTL_HOURS : ℕ := 24 * 30

/-- `MAX_CACHE_ENTRIES = 10000` (line 26). -/
def MAX_CACHE_ENTRIES : ℕ := 10000

/-- Dict lookup `EMBEDDING_CACHE[text_hash]`. -/
def cacheLookup : Cache → String → Option (Vec × ℕ)
  | [], _ => none
  | e :: rest, t => if e.key = t then some (e.vec, e.stamp) else cacheLookup rest t

/-- Dict membership `text_hash in EMBEDDING_CACHE`. -/
def cacheHasKey : Cache → String → Bool
  | [], _ => false
  | e :: rest, t => e.key = t || cacheHasKey rest t

/-- Dict deletion `del EMBEDDING_CACHE[text_hash]` (remaining entries keep
their order). -/
def cacheErase : Cache → String → Cache
  | [], _ => []
  | e :: rest, t => if e.key = t then cacheErase rest t else e :: cacheErase rest t

/-- `_get_cached_embedding` (lines 179–195): return the cached vector when
its age is below the TTL; delete an expired entry; also returns the
possibly-updated cache. -/
def getCachedEmbedding (c : Cache) (t : String) (now : ℕ) : Option Vec × Cache :=
  match cacheLookup c t with
  | some (v, ts) =>
    if now - ts < CACHE_TTL_HOURS then (some v, c) else (none, cacheErase c t)
  | none => (none, c)

/-- Stable insertion into a timestamp-sorted list (equal stamps keep their
original relative order, as Python's stable `sorted` does). -/
def insertByStamp (e : CacheEntry) : List CacheEntry → List CacheEntry
  | [] => [e]
  | f :: fs => if f.stamp ≤ e.stamp then f :: insertByStamp e fs else e :: f :: fs

/-- `sorted(EMBEDDING_CACHE.items(), key=lambda x: x[1][1])` (line 205). -/
def sortByStamp : List CacheEntry → List CacheEntry
  | [] => []
  | e :: rest => insertByStamp e (sortByStamp rest)

/-- Lines 204–208: delete the `k` oldest entries. -/
def evictOldest (c : Cache) (k : ℕ) : Cache :=
  let victims := ((sortByStamp c).take k).map (fun e => e.key)
  c.filter (fun e => ¬ victims.contains e.key)

/-- In-place overwrite of an existing key (dict assignment keeps the key's
position). -/
def cacheUpdate : Cache → String → Vec → ℕ → Cache
  | [], _, _, _ => []
  | e :: rest, t, v, now =>
    (if e.key = t then (⟨t, v, now⟩ : CacheEntry) else e) :: cacheUpdate rest t v now

/-- `_cache_embedding` (lines 197–209): insert or overwrite the entry, then
evict the oldest entries while over capacity. -/
def cacheEmbedding (c : Cache) (t : String) (v : Vec) (now : ℕ) : Cache :=
  let c1 := if cacheHasKey c t then cacheUpdate c t v now else c ++ [⟨t, v, now⟩]
  if MAX_CACHE_ENTRIES < c1.length then evictOldest c1 (c1.length - MAX_CACHE_ENTRIES)
  else c1

/-- `not text or not text.strip()` (line 104). -/
def pyIsBlank (t : String) : Bool := t == "" || pyStrip t == ""

/-- State after the first loop of `embed` (lines 99–114): collected cache
hits by input position, the cache-miss texts and their positions (in input
order), and the cache (expired entries may have been deleted). -/
structure EmbedPhase1 where
  cached : List (ℕ × Vec)
  toEmbed : List String
  indices : List ℕ
  cache : Cache

/-- First loop of `embed` (lines 103–114): skip blank texts, collect cache
hits, gather misses into `texts_to_embed`/`text_indices`. -/
def embedScan (useCache : Bool) (now : ℕ) : Cache → ℕ → List String → EmbedPhase1
  | c, _, [] => ⟨[], [], [], c⟩
  | c, idx, t :: rest =>
    if pyIsBlank t then embedScan useCache now c (idx + 1) rest
    else if useCache then
      match getCachedEmbedding c t now with
      | (some v, c') =>
        let r := embedScan useCache now c' (idx + 1) rest
        ⟨(idx, v) :: r.cached, r.toEmbed, r.indices, r.cache⟩
      | (none, c') =>
        let r := embedScan useCache now c' (idx + 1) rest
        ⟨r.cached, t :: r.toEmbed, idx :: r.indices, r.cache⟩
    else
      let r := embedScan useCache now c (idx + 1) rest
      ⟨r.cached, t :: r.toEmbed, idx :: r.indices, r.cache⟩

/-- Key membership for an index-keyed dict. -/
def assocHas : List (ℕ × Vec) → ℕ → Bool
  | [], _ => false
  | p :: rest, k => p.1 = k || assocHas rest k

/-- In-place overwrite for an index-keyed dict. -/
def assocUpdate : List (ℕ × Vec) → ℕ → Vec → List (ℕ × Vec)
  | [], _, _ => []
  | p :: rest, k, v => (if p.1 = k then (k, v) else p) :: assocUpdate rest k v

/-- Dict assignment `m[k] = v` on an association list. -/
def assocSet (m : List (ℕ × Vec)) (k : ℕ) (v : Vec) : List (ℕ × Vec) :=
  if assocHas m k then assocUpdate m k v else m ++ [(k, v)]

/-- Dict lookup on an association list. -/
def assocGet : List (ℕ × Vec) → ℕ → Option Vec
  | [], _ => none
  | p :: rest, k => if p.1 = k then some p.2 else assocGet rest k

/-- Python `list.index(x)`: position of the first occurrence. -/
def pyIndex : List String → String → ℕ
  | [], _ => 0
  | s :: rest, t => if s = t then 0 else pyIndex rest t + 1

/-- Second loop of `embed` (lines 149–156): walk
`zip(texts_to_embed, response.data)` recovering each input position as
`text_indices[texts_to_embed.index(text)]` — `.index` returns the FIRST
occurrence, which collapses duplicate texts onto one position — and cache
each embedding. -/
def embedNewLoop (useCache : Bool) (now : ℕ) (toEmbedFull : List String)
    (indices : List ℕ) :
    List (String × Vec) → List (ℕ × Vec) → Cache → List (ℕ × Vec) × Cache
  | [], m, c => (m, c)
  | (t, v) :: rest, m, c =>
    let idx := indices.getD (pyIndex toEmbedFull t) 0
    let m' := assocSet m idx v
    let c' := if useCache then cacheEmbedding c t v now else c
    embedNewLoop useCache now toEmbedFull indices rest m' c'

/-- Result of one `embed` call: the returned array, the cache afterwards,
and the number of provider (API) calls made. -/
structure EmbedResult where
  vectors : List Vec
  cache : Cache
  providerCalls : ℕ
deriving DecidableEq

/-- `EmbeddingService.embed` (embeddings.py lines 83–169): per-text cache
check, one batched provider call for the cache misses, then the results
re-assembled in input order with `np.zeros(dimension)` for positions that
received nothing. -/
def embed (provider : String → Vec) (dim : ℕ) (useCache : Bool) (c0 : Cache)
    (now : ℕ) (texts : List String) : EmbedResult :=
  if texts = [] then ⟨[], c0, 0⟩
  else
    let p1 := embedScan useCache now c0 0 texts
    let step2 :=
      if p1.toEmbed = [] then (([] : List (ℕ × Vec)), p1.cache)
      else embedNewLoop useCache now p1.toEmbed p1.indices
        (p1.toEmbed.zip (p1.toEmbed.map provider)) [] p1.cache
    let vectors := (List.range texts.length).map (fun idx =>
      match assocGet p1.cached idx with
      | some v => v
      | none =>
        match assocGet step2.1 idx with
        | some v => v
        | none => List.replicate dim 0)
    ⟨vectors, step2.2, if p1.toEmbed = [] then 0 else 1⟩

/-- Concrete provider fixture: "A" embeds to `[1]`, anything else to `[2]`. -/
def provA : String → Vec := fun t => if t = "A" then [(1:ℚ)] else [(2:ℚ)]

end Embeddings

namespace VectorStore

/-!
### Integrity repair (`repair_missing_vectors`, vector_store.py lines 1823–1953)

The MongoDB cursor (profiles sorted ascending by `created_at`) is modelled as
the input list. `build_resume_composite_text(raw_text, profile)` depends on
the profile document, so it is carried as the `composite` field of the
profile model. The embedding provider is an oracle `String → Vec`.
-/

/-- One document of the `trainer_profiles` cursor, with the composite text
`build_resume_composite_text` would produce for it. -/
structure RepairProfile where
  profile_id : Option String
  raw_text : String
  composite : String
deriving DecidableEq

/-- `get_vector_store_ids()` (line 1591–1595):
`{entry.get("id") for entry in vector_store.values() if entry.get("id")}`. -/
def getVectorStoreIds (store : List (ℕ × String)) : List String :=
  ((store.map (fun p => p.2)).filter (fun s => s ≠ "")).dedup

/-- Running state of `repair_missing_vectors`: the FAISS index (list of
vectors), the slot→id side table, the `faiss_ids` set, and the summary
counters. -/
structure RepairState where
  index : List Vec
  store : List (ℕ × String)
  faissIds : List String
  checked : ℕ
  added : ℕ
  skipped : ℕ
  stopped : Bool
  errors : ℕ
  consecutive : ℕ
deriving DecidableEq

/-- The profile loop of `repair_missing_vectors` (lines 1864–1934):
count the profile, skip falsy ids, increment `consecutive_existing` on
already-indexed profiles and stop at 5, otherwise reset the counter and
embed-and-add the missing profile (an empty composite text is recorded as
an error and skipped). -/
def repairGo (provider : String → Vec) : RepairState → List RepairProfile → RepairState
  | st, [] => st
  | st, p :: rest =>
    let st1 : RepairState := { st with checked := st.checked + 1 }
    match p.profile_id with
    | none => repairGo provider st1 rest
    | some pid =>
      if pid = "" then repairGo provider st1 rest
      else if st1.faissIds.contains pid then
        let st2 : RepairState :=
          { st1 with consecutive := st1.consecutive + 1, skipped := st1.skipped + 1 }
        if 5 ≤ st2.consecutive then { st2 with stopped := true }
        else repairGo provider st2 rest
      else
        let st3 : RepairState := { st1 with consecutive := 0 }
        if pyStrip p.composite = "" then
          repairGo provider { st3 with errors := st3.errors + 1 } rest
        else
          repairGo provider
            { st3 with
              index := st3.index ++ [provider p.composite],
              store := st3.store ++ [(st3.index.length, pid)],
              faissIds := st3.faissIds ++ [pid],
              added := st3.added + 1 } rest

/-- `repair_missing_vectors()` over a given index/side-table state and the
cursor's profile list (in ascending `created_at` order). -/
def repair_missing_vectors (provider : String → Vec) (index : List Vec)
    (store : List (ℕ × String)) (profiles : List RepairProfile) : RepairState :=
  repairGo provider
    ⟨index, store, getVectorStoreIds store, 0, 0, 0, false, 0, 0⟩ profiles

end VectorStore

namespace VectorStore

/-!
### Cache layers and `clear_all_caches` (vector_store.py lines 910–935)

The module-level caches: `_embedding_cache`, `_expansion_cache`,
`_skill_extraction_cache`, `_all_resume_skills_cache` (an `Optional[Set]`),
`_semantic_domain_cache` (line 155) and `_similarity_cache` (line 2090).
-/

/-- The module-level cache dictionaries of vector_store.py. -/
structure Caches where
  embedding : List (String × Vec × ℕ)
  expansion : List (String × List String × ℕ)
  skillExtraction : List (String × List String × ℕ)
  resumeSkills : Option (List String)
  semanticDomain : List (String × Vec)
  similarity : List ((String × String) × ℚ)
deriving DecidableEq

/-- The summary dict returned by `clear_all_caches` (lines 929–935). -/
structure ClearSummary where
  embedding_cache_cleared : ℕ
  expansion_cache_cleared : ℕ
  skill_extraction_cache_cleared : ℕ
  resume_skills_cache_cleared : ℕ
  total_cleared : ℕ
deriving DecidableEq

/-- `clear_all_caches()` (lines 910–935): clears the embedding, expansion,
skill-extraction and resume-skills caches and reports their former sizes
(`len(...) if _all_resume_skills_cache else 0` for the resume-skills
layer); `_semantic_domain_cache` and `_similarity_cache` are not touched. -/
def clear_all_caches (c : Caches) : Caches × ClearSummary :=
  let e := c.embedding.length
  let x := c.expansion.length
  let s := c.skillExtraction.length
  let r := match c.resumeSkills with
    | none => 0
    | some l => l.length
  (⟨[], [], [], some [], c.semanticDomain, c.similarity⟩,
   ⟨e, x, s, r, e + x + s + r⟩)

end VectorStore


namespace VectorStore

/-!
### Skill expansion (`expand_skills`, vector_store.py lines 473–635)

Oracle parameters stand for the external collaborators:
* `valid` — `get_all_resume_skills()`, the corpus vocabulary;
* `cached` — `get_cached_expansion(cache_key)` (`none` = miss);
* `semanticResult` — `expand_skills_semantic(skills, min_terms, max_terms)`
  (line 516; its output starts with `list(skills)`);
* `graphExpanded` — `expand_skills_with_graph(skills, max_terms * 2)`;
* `llmParts` — the per-part values `part.strip().lower().rstrip(".,!?;:")`
  for the comma-split of the LLM reply (lines 575–576), in order; `none`
  when the completion call raised.
-/

/-- Cache fast path (lines 503–513): a truthy cached list is re-validated
against the current vocabulary and returned when it still has at least
`min_terms` entries; otherwise the full pipeline runs. -/
def expandCachePath (valid : List String) (cached : Option (List String))
    (min_terms max_terms : ℕ) : Option (List String) :=
  match cached with
  | some cl =>
    if cl ≠ [] then
      let validated := cl.filter (fun s => s ∈ valid)
      if min_terms ≤ validated.length then some (validated.take max_terms)
      else none
    else none
  | none => none

/-- Graph supplement loop (lines 519–525): append lowered graph terms that
are in the vocabulary and not yet in `result`, stopping once `result`
reaches `max_terms`. -/
def graphSupplement (valid : List String) (max_terms : ℕ) :
    List String → List String → List String
  | res, [] => res
  | res, s :: rest =>
    if s ∈ valid ∧ ¬ pyLower s ∈ res.map pyLower then
      if max_terms ≤ (res ++ [pyLower s]).length then res ++ [pyLower s]
      else graphSupplement valid max_terms (res ++ [pyLower s]) rest
    else graphSupplement valid max_terms res rest

/-- Inner loop of the LLM-parse block (lines 581–585): rescan the whole
`expanded` list, appending terms new to `result`; a `break` fires after the
append that reaches `max_terms`. -/
def llmInnerScan (max_terms : ℕ) : List String → List String → List String
  | res, [] => res
  | res, sk :: rest =>
    if pyLower sk ∈ res.map pyLower then llmInnerScan max_terms res rest
    else
      if max_terms ≤ (res ++ [sk]).length then res ++ [sk]
      else llmInnerScan max_terms (res ++ [sk]) rest

/-- Outer loop of the LLM-parse block (lines 575–585): each comma part is
accumulated into `expanded` when non-empty, and the inner rescan of
`expanded` runs once per part (the source nests it inside the part loop). -/
def llmLoop (max_terms : ℕ) : List String → List String → List String → List String
  | [], _, res => res
  | part :: rest, expAcc, res =>
    let expAcc' := if part ≠ "" then expAcc ++ [part] else expAcc
    llmLoop max_terms rest expAcc' (llmInnerScan max_terms res expAcc')

/-- "Always include original skills at the front" (lines 589–593): start
from `list(skills)` and append the lowered novel entries of `result`. -/
def finalResultGo : List String → List String → List String
  | fr, [] => fr
  | fr, s :: rest =>
    if pyLower s ∈ fr.map pyLower then finalResultGo fr rest
    else finalResultGo (fr ++ [pyLower s]) rest

/-- Corpus validation of one term (lines 600–608): exact vocabulary match of
the lowered-stripped term, or any of its whitespace words longer than 2
characters in the vocabulary. -/
def skillValid (valid : List String) (sl : String) : Bool :=
  sl ∈ valid || (pyWords sl).any (fun w => 2 < w.length && w ∈ valid)

/-- Validation pass (lines 595–611): keep `skill.lower().strip()` for each
term accepted by `skillValid`. -/
def validateStage (valid : List String) (finalResult : List String) : List String :=
  finalResult.filterMap (fun skill =>
    if skillValid valid (pyLowerStrip skill) then some (pyLowerStrip skill)
    else none)

/-- De-duplication with early exit (lines 613–621): keep first occurrences,
breaking after the append that reaches `max_terms`. -/
def dedupTakeGo (max_terms : ℕ) (acc : List String) : List String → List String
  | [] => acc
  | s :: rest =>
    if s ∈ acc then dedupTakeGo max_terms acc rest
    else
      if max_terms ≤ (acc ++ [s]).length then acc ++ [s]
      else dedupTakeGo max_terms (acc ++ [s]) rest

/-- Padding loop (lines 623–629): append lowered original skills that are
missing until `min_terms` is reached. -/
def padGo (min_terms : ℕ) : List String → List String → List String
  | [], u => u
  | s :: rest, u =>
    if pyLower s ∈ u then padGo min_terms rest u
    else
      if min_terms ≤ (u ++ [pyLower s]).length then u ++ [pyLower s]
      else padGo min_terms rest (u ++ [pyLower s])

/-- `result` after the three expansion phases (lines 515–587): the semantic
result, supplemented from the graph when short of `min_terms`, then the
LLM-parse loop (which always runs; a raised completion call leaves `result`
unchanged). -/
def expandSkillsResult2 (valid : List String)
    (semanticResult graphExpanded : List String)
    (llmParts : Option (List String)) (min_terms max_terms : ℕ) : List String :=
  let result1 :=
    if semanticResult.length < min_terms then
      graphSupplement valid max_terms semanticResult graphExpanded
    else semanticResult
  match llmParts with
  | none => result1
  | some parts => llmLoop max_terms parts [] result1

/-- The validated list fed to de-duplication (lines 589–611). -/
def expandSkillsValidated (valid : List String)
    (semanticResult graphExpanded : List String)
    (llmParts : Option (List String)) (skills : List String)
    (min_terms max_terms : ℕ) : List String :=
  validateStage valid (finalResultGo skills
    (expandSkillsResult2 valid semanticResult graphExpanded llmParts
      min_terms max_terms))

/-- `expand_skills` (lines 473–635): cache fast path, three-phase expansion,
validation against the vocabulary, de-duplication capped at `max_terms`,
padding from the original skills up to `min_terms`, final truncation. -/
def expand_skills (valid : List String) (cached : Option (List String))
    (semanticResult graphExpanded : List String)
    (llmParts : Option (List String)) (skills : List String)
    (min_terms max_terms : ℕ) : List String :=
  if skills = [] then []
  else
    match expandCachePath valid cached min_terms max_terms with
    | some out => out
    | none =>
      let unique := dedupTakeGo max_terms []
        (expandSkillsValidated valid semanticResult graphExpanded llmParts
          skills min_terms max_terms)
      (if unique.length < min_terms then padGo min_terms skills unique
       else unique).take max_terms

end VectorStore

namespace VectorStore

/-!
### Multi-vector index (`upsert_multi_vector` / `remove_multi_vector`,
vector_store.py lines 2219–2395)

`multi_vector_index` holds the vectors (slot = position, `ntotal` =
length); `multi_vector_store` is the slot→chunk-metadata side table. The
index is the HNSW structure created by `initialize_multi_vector_index`
(USE_HNSW is true), so removal takes the rebuild branch. The chunker and
the embedding provider are oracles: `chunksDict` is the output of
`chunker.chunk_resume(metadata, raw_text)` flattened per chunk type, and
`provider` maps a chunk text to its embedding.
-/

/-- One side-table entry (profile id, chunk type, chunk index; the nested
metadata dict is not needed by the claims). -/
structure ChunkEntry where
  profile_id : String
  chunk_type : String
  chunk_index : ℕ
deriving DecidableEq

/-- The multi-vector index and its side table. -/
structure MultiState where
  index : List Vec
  store : List (ℕ × ChunkEntry)
deriving DecidableEq

/-- Dict lookup `multi_vector_store[idx]`. -/
def storeLookup : List (ℕ × ChunkEntry) → ℕ → Option ChunkEntry
  | [], _ => none
  | p :: rest, k => if p.1 = k then some p.2 else storeLookup rest k

/-- Dict membership for the side table. -/
def storeHasKey : List (ℕ × ChunkEntry) → ℕ → Bool
  | [], _ => false
  | p :: rest, k => p.1 = k || storeHasKey rest k

/-- In-place overwrite for the side table. -/
def storeUpdate : List (ℕ × ChunkEntry) → ℕ → ChunkEntry → List (ℕ × ChunkEntry)
  | [], _, _ => []
  | p :: rest, k, m => (if p.1 = k then (k, m) else p) :: storeUpdate rest k m

/-- Dict assignment `multi_vector_store[idx] = meta`. -/
def storeSet (st : List (ℕ × ChunkEntry)) (k : ℕ) (m : ChunkEntry) :
    List (ℕ × ChunkEntry) :=
  if storeHasKey st k then storeUpdate st k m else st ++ [(k, m)]

/-- `remove_multi_vector(profile_id)` (lines 2348–2395), HNSW branch: find
the slots mapped to the profile, then rebuild the index keeping, for each
old slot in `range(ntotal)`, its vector and metadata — slots being removed
and slots absent from the side table (the `KeyError` is swallowed by the
bare `except`) are dropped — and re-number the side table densely. -/
def remove_multi_vector (pid : String) (st : MultiState) : MultiState :=
  let toRemove := (st.store.filter (fun p => p.2.profile_id = pid)).map
    (fun p => p.1)
  if toRemove = [] then st
  else
    let kept := (List.range st.index.length).filterMap (fun idx =>
      if idx ∈ toRemove then none
      else match storeLookup st.store idx with
        | some meta => some (st.index.getD idx [], meta)
        | none => none)
    ⟨kept.map (fun p => p.1),
      (List.range kept.length).zip (kept.map (fun p => p.2))⟩

/-- One chunk produced by the chunker (its text and `chunk_index`). -/
structure Chunk where
  text : String
  chunk_index : ℕ
deriving DecidableEq

/-- The add loop of lines 2300–2310: skip empty embeddings, raise on a
dimension mismatch, append each remaining vector to the index. -/
def addChunksLoop (dim : ℕ) : List Vec → List (Vec × ChunkEntry) →
    Except String (List Vec)
  | idx, [] => .ok idx
  | idx, (emb, _) :: rest =>
    if emb = [] then addChunksLoop dim idx rest
    else if ¬ emb.length = dim then .error "Embedding dimension mismatch"
    else addChunksLoop dim (idx ++ [emb]) rest

/-- `upsert_multi_vector` (lines 2219–2345): validate inputs (a stripped
`raw_text` under 10 characters raises), chunk, remove the profile's
existing slots, embed the non-blank chunks, append their vectors in the
loop of lines 2300–2310 — and then write the side table once, at lines
2311–2312, which sit OUTSIDE that loop: a single entry for the last slot,
carrying the last chunk's metadata. -/
def upsert_multi_vector (provider : String → Vec) (dim : ℕ) (pid raw : String)
    (metaNonempty : Bool) (chunksDict : List (String × List Chunk))
    (st : MultiState) : Except String MultiState :=
  if pid = "" then .error "profile_id is required"
  else if raw = "" then .error "raw_text must be a non-empty string"
  else if (pyStrip raw).length < 10 then .error "raw_text is too short"
  else if ¬ metaNonempty then .error "metadata is required"
  else
    let allChunks := chunksDict.flatMap (fun p =>
      p.2.map (fun c => (c.text, ChunkEntry.mk pid p.1 c.chunk_index)))
    let st1 := remove_multi_vector pid st
    if allChunks = [] then .ok st1
    else
      let validChunks := allChunks.filter (fun p => ¬ pyStrip p.1 = "")
      if validChunks = [] then .ok st1
      else
        let pairs := validChunks.map (fun p => (provider p.1, p.2))
        match addChunksLoop dim st1.index pairs with
        | .error e => .error e
        | .ok newIndex =>
          match (validChunks.map (fun p => p.2)).getLast? with
          | some lastMeta =>
            .ok ⟨newIndex, storeSet st1.store (newIndex.length - 1) lastMeta⟩
          | none => .ok ⟨newIndex, st1.store⟩

end VectorStore

namespace VectorStore

/-!
### Single-vector index (`upsert_vector`, lines 1089–1130) and
`perform_faiss_search` (lines 1133–1298)

`faiss_index` only matters through `ntotal` (vectors live inside FAISS);
`vector_store` maps slots to `{"id": …, "metadata": …}` entries. A FAISS
search outcome is an oracle: the `(index, raw_score)` pairs the ANN
structure returned, sorted by similarity.
-/

/-- One `vector_store` entry: the external id plus the metadata fields the
scoring code reads. -/
structure StoredProfile where
  id : String
  skills : List String
  skill_domains : List String
  experience_years : ℚ
deriving DecidableEq

/-- The single-vector index state. -/
structure SingleState where
  ntotal : ℕ
  store : List (ℕ × StoredProfile)
deriving DecidableEq

/-- Dict lookup `vector_store[idx]`. -/
def singleStoreLookup : List (ℕ × StoredProfile) → ℕ → Option StoredProfile
  | [], _ => none
  | p :: rest, k => if p.1 = k then some p.2 else singleStoreLookup rest k

/-- Dict membership for `vector_store`. -/
def singleStoreHasKey : List (ℕ × StoredProfile) → ℕ → Bool
  | [], _ => false
  | p :: rest, k => p.1 = k || singleStoreHasKey rest k

/-- In-place overwrite for `vector_store`. -/
def singleStoreUpdate : List (ℕ × StoredProfile) → ℕ → StoredProfile →
    List (ℕ × StoredProfile)
  | [], _, _ => []
  | p :: rest, k, m => (if p.1 = k then (k, m) else p) :: singleStoreUpdate rest k m

/-- Dict assignment `vector_store[idx] = entry`. -/
def singleStoreSet (st : List (ℕ × StoredProfile)) (k : ℕ) (m : StoredProfile) :
    List (ℕ × StoredProfile) :=
  if singleStoreHasKey st k then singleStoreUpdate st k m else st ++ [(k, m)]

/-- First slot whose entry has the given id (the `for idx, stored in
vector_store.items()` scan of lines 1103–1107). -/
def findExistingIdx : List (ℕ × StoredProfile) → String → Option ℕ
  | [], _ => none
  | p :: rest, pid => if p.2.id = pid then some p.1 else findExistingIdx rest pid

/-- Dict deletion `del vector_store[existing_idx]`. -/
def singleStoreErase : List (ℕ × StoredProfile) → ℕ → List (ℕ × StoredProfile)
  | [], _ => []
  | p :: rest, k => if p.1 = k then singleStoreErase rest k
    else p :: singleStoreErase rest k

/-- `upsert_vector` (lines 1089–1130): try the multi-vector upsert and
swallow its failure (lines 1094–1097, "continuing with single-vector");
then embed the composite text, delete the profile's existing `vector_store`
mapping (the FAISS vector itself is not removed), append the new vector
(`ntotal` grows by one) and map the new last slot to the profile. -/
def upsert_vector (provider : String → Vec) (dim : ℕ) (pid raw : String)
    (metaNonempty : Bool) (chunksDict : List (String × List Chunk))
    (meta : StoredProfile) (multi : MultiState) (single : SingleState) :
    MultiState × SingleState :=
  let multi2 := match upsert_multi_vector provider dim pid raw metaNonempty
      chunksDict multi with
    | .ok m => m
    | .error _ => multi
  let store1 := match findExistingIdx single.store pid with
    | some idx => singleStoreErase single.store idx
    | none => single.store
  (multi2, ⟨single.ntotal + 1, singleStoreSet store1 single.ntotal meta⟩)

/-- Stable-by-construction descending insertion used to model
`results.sort(key=lambda x: x["score"], reverse=True)` (line 1295); ties
may be ordered differently from Python's stable sort, which no claim
depends on. -/
def insertByScoreDesc (e : String × ℚ) : List (String × ℚ) → List (String × ℚ)
  | [] => [e]
  | f :: fs => if e.2 ≤ f.2 then f :: insertByScoreDesc e fs else e :: f :: fs

/-- Sort by score, highest first. -/
def sortByScoreDesc : List (String × ℚ) → List (String × ℚ)
  | [] => []
  | e :: rest => insertByScoreDesc e (sortByScoreDesc rest)

/-- The prefilter test of line 1195:
`filter_ids is not None and vector_id not in filter_ids`. -/
def filteredOut (filterIds : Option (List String)) (pid : String) : Bool :=
  match filterIds with
  | some f => ¬ pid ∈ f
  | none => false

/-- Result-collection loop of `perform_faiss_search` (lines 1186–1292):
skip negative ids and slots without a store entry, apply the prefilter,
de-duplicate by id, score with `faissEntryScore`, stop at `top_k`. -/
def faissSearchGo (topK : ℕ) (filterIds : Option (List String))
    (expandedSkills : List String) (mandatorySkill : Option String)
    (store : List (ℕ × StoredProfile)) :
    List (ℤ × ℚ) → List String → List (String × ℚ) → List (String × ℚ)
  | [], _, acc => acc
  | (idx, raw) :: rest, seen, acc =>
    if idx < 0 then faissSearchGo topK filterIds expandedSkills mandatorySkill
      store rest seen acc
    else match singleStoreLookup store idx.toNat with
      | none => faissSearchGo topK filterIds expandedSkills mandatorySkill
          store rest seen acc
      | some entry =>
        if filteredOut filterIds entry.id then
          faissSearchGo topK filterIds expandedSkills mandatorySkill store rest
            seen acc
        else if entry.id ∈ seen then
          faissSearchGo topK filterIds expandedSkills mandatorySkill store rest
            seen acc
        else
          let score := faissEntryScore raw expandedSkills entry.skills
            entry.skill_domains mandatorySkill entry.experience_years
          if topK ≤ (acc ++ [(entry.id, score)]).length then
            acc ++ [(entry.id, score)]
          else
            faissSearchGo topK filterIds expandedSkills mandatorySkill store
              rest (seen ++ [entry.id]) (acc ++ [(entry.id, score)])

/-- `perform_faiss_search` (lines 1133–1298) over the oracle FAISS output:
empty index short-circuits, otherwise collect, score, and sort. -/
def perform_faiss_search (single : SingleState) (faissOut : List (ℤ × ℚ))
    (topK : ℕ) (filterIds : Option (List String))
    (expandedSkills : List String) (mandatorySkill : Option String) :
    List (String × ℚ) :=
  if single.ntotal = 0 then []
  else sortByScoreDesc (faissSearchGo topK filterIds expandedSkills
    mandatorySkill single.store faissOut [] [])

/-!
### Query pipeline prefilter handling (`fetch_mandatory_skill_filter`,
lines 2398–2602, and `query_multi_vector`, lines 3032–3102)

`dbIds` is the oracle outcome of the MongoDB query plus domain filtering
(the `profile_ids` set of lines 2569/2594; an exception also yields no
ids). `searchFn` is the oracle for `search_multi_vector(query, top_k*20,
filter_ids, …)` as a function of the filter id set it is given.
-/

/-- `mandatory_skill` truthiness (`if not mandatory_skill: return None`). -/
def mandatoryTruthy : Option String → Bool
  | none => false
  | some m => ¬ m = ""

/-- `fetch_mandatory_skill_filter` (lines 2398–2602): `None` for a falsy
skill; otherwise `profile_ids if profile_ids else None` — an empty outcome
(or a raised DB error) becomes `None`, never an empty set. -/
def fetch_mandatory_skill_filter (mandatory : Option String)
    (dbIds : List String) : Option (List String) :=
  match mandatory with
  | none => none
  | some m => if m = "" then none else if dbIds = [] then none else some dbIds

/-- `query_multi_vector` (lines 3032–3102), filter-handling stages: combine
the prefilter with the caller's `filter_ids` (intersection, widened to the
union when it has fewer than 10 ids); when the prefilter produced nothing
but a mandatory skill was given, return an empty result list WITHOUT
searching (lines 3073–3082); otherwise search and truncate to `top_k`. -/
def query_multi_vector (mandatory : Option String) (dbIds : List String)
    (filterIds : Option (List String)) (topK : ℕ)
    (searchFn : Option (List String) → List (String × ℚ)) :
    List (String × ℚ) :=
  match fetch_mandatory_skill_filter mandatory dbIds with
  | some m =>
    if m = [] then
      if mandatoryTruthy mandatory then [] else (searchFn filterIds).take topK
    else
      let combined := match filterIds with
        | some f =>
          let inter := f.filter (fun x => x ∈ m)
          if inter.length < 10 then f ++ m.filter (fun x => ¬ x ∈ f)
          else inter
        | none => m
      (searchFn (some combined)).take topK
  | none =>
    if mandatoryTruthy mandatory then [] else (searchFn filterIds).take topK

/-- Constant search oracle returning one ranked profile, standing for a
non-empty index on which unfiltered search succeeds. -/
def constSearch : Option (List String) → List (String × ℚ) :=
  fun _ => [("A", (90:ℚ))]

end VectorStore

namespace VectorStore

theorem le_round2_of_le {n : ℤ} {x : ℚ} (h : (n : ℚ) ≤ x) : (n : ℚ) ≤ round2 x := by
  have h1 : (n * 100 : ℤ) ≤ ⌊x * 100 + 1/2⌋ := by
    rw [Int.le_floor]; push_cast; nlinarith
  have h2 : ((n * 100 : ℤ) : ℚ) ≤ ((⌊x * 100 + 1/2⌋ : ℤ) : ℚ) := by exact_mod_cast h1
  unfold round2
  rw [le_div_iff (by norm_num : (0:ℚ) < 100)]
  push_cast at h2 ⊢
  linarith

theorem round2_le_of_le {m : ℤ} {x : ℚ} (h : x ≤ (m : ℚ)) : round2 x ≤ (m : ℚ) := by
  have h1 : ⌊x * 100 + 1/2⌋ ≤ m * 100 := by
    have hlt : x * 100 + 1/2 < ((m * 100 + 1 : ℤ) : ℚ) := by push_cast; nlinarith
    exact Int.lt_add_one_iff.mp (Int.floor_lt.mpr hlt)
  have h2 : ((⌊x * 100 + 1/2⌋ : ℤ) : ℚ) ≤ ((m * 100 : ℤ) : ℚ) := by exact_mod_cast h1
  unfold round2
  rw [div_le_iff (by norm_num : (0:ℚ) < 100)]
  push_cast at h2 ⊢
  linarith

theorem faissFinal0_le_100 (r : ℚ) (es sk dm : List String) (ms : Option String)
    (ey : ℚ) : faissFinal0 r es sk dm ms ey ≤ 100 :=
  min_le_left _ _

theorem faissFinal1_mem (r : ℚ) (es sk dm : List String) (ms : Option String)
    (ey : ℚ) : 75 ≤ faissFinal1 r es sk dm ms ey ∧
      faissFinal1 r es sk dm ms ey ≤ 100 := by
  unfold faissFinal1
  split_ifs with h
  · exact ⟨le_min (by norm_num) (le_max_left _ _), min_le_left _ _⟩
  · exact ⟨not_lt.mp h, faissFinal0_le_100 r es sk dm ms ey⟩

theorem faissFinal2_mem (r : ℚ) (es sk dm : List String) (ms : Option String)
    (ey : ℚ) : 75 ≤ faissFinal2 r es sk dm ms ey ∧
      faissFinal2 r es sk dm ms ey ≤ 100 := by
  unfold faissFinal2
  split_ifs with h
  · refine ⟨le_min (by norm_num) ?_, min_le_left _ _⟩
    exact le_trans (by norm_num) (le_max_left _ _)
  · exact faissFinal1_mem r es sk dm ms ey

theorem faissFinal2_ge_80 (r : ℚ) (es sk dm : List String) (ms : Option String)
    (ey : ℚ)
    (hb : faissOverlapBonus es sk dm > 0 ∨ faissMandatoryBonus ms sk dm > 0) :
    80 ≤ faissFinal2 r es sk dm ms ey := by
  unfold faissFinal2
  split_ifs with h
  · exact le_min (by norm_num) (le_max_left _ _)
  · have h1 : ¬ faissFinal1 r es sk dm ms ey < 80 := fun hlt => h ⟨hb, hlt⟩
    exact not_lt.mp h1

/-- Every `perform_faiss_search` entry score lies in `[75, 100]`. -/
theorem faissEntryScore_mem (r : ℚ) (es sk dm : List String) (ms : Option String)
    (ey : ℚ) : 75 ≤ faissEntryScore r es sk dm ms ey ∧
      faissEntryScore r es sk dm ms ey ≤ 100 := by
  obtain ⟨h1, h2⟩ := faissFinal2_mem r es sk dm ms ey
  constructor
  · have := le_round2_of_le (n := 75) (x := faissFinal2 r es sk dm ms ey)
      (by exact_mod_cast h1)
    exact_mod_cast this
  · have := round2_le_of_le (m := 100) (x := faissFinal2 r es sk dm ms ey)
      (by exact_mod_cast h2)
    exact_mod_cast this

theorem multiVectorProfileScore_mem (h ska ta ds cr : ℚ) :
    0 ≤ multiVectorProfileScore h ska ta ds cr ∧
      multiVectorProfileScore h ska ta ds cr ≤ 100 := by
  unfold multiVectorProfileScore
  constructor
  · have := le_round2_of_le (n := 0)
      (x := max 0 (min 100 (multiVectorRawScore h ska ta ds cr)))
      (le_max_left _ _)
    exact_mod_cast this
  · have hle : max (0:ℚ) (min 100 (multiVectorRawScore h ska ta ds cr)) ≤ 100 :=
      max_le (by norm_num) (min_le_left _ _)
    have := round2_le_of_le (m := 100) hle
    exact_mod_cast this

/-- C4: every final score of both scoring paths lies in `[0, 100]`. On the
single-vector path the score is in fact always in `[75, 100]`. -/
theorem final_scores_within_0_100 :
    (∀ (r : ℚ) (es sk dm : List String) (ms : Option String) (ey : ℚ),
      0 ≤ faissEntryScore r es sk dm ms ey ∧
        faissEntryScore r es sk dm ms ey ≤ 100) ∧
    (∀ h ska ta ds cr : ℚ,
      0 ≤ multiVectorProfileScore h ska ta ds cr ∧
        multiVectorProfileScore h ska ta ds cr ≤ 100) := by
  constructor
  · intro r es sk dm ms ey
    obtain ⟨h1, h2⟩ := faissEntryScore_mem r es sk dm ms ey
    exact ⟨le_trans (by norm_num) h1, h2⟩
  · exact multiVectorProfileScore_mem

/-- C10: every single-vector FAISS result score is at least 75, and at least
80 whenever the entry has a positive skill-overlap or mandatory-skill
bonus. -/
theorem faiss_scores_floored_at_75 (r : ℚ) (es sk dm : List String)
    (ms : Option String) (ey : ℚ) :
    75 ≤ faissEntryScore r es sk dm ms ey ∧
      ((faissOverlapBonus es sk dm > 0 ∨ faissMandatoryBonus ms sk dm > 0) →
        80 ≤ faissEntryScore r es sk dm ms ey) := by
  refine ⟨(faissEntryScore_mem r es sk dm ms ey).1, fun hb => ?_⟩
  have h80 := faissFinal2_ge_80 r es sk dm ms ey hb
  have := le_round2_of_le (n := 80) (x := faissFinal2 r es sk dm ms ey)
    (by exact_mod_cast h80)
  exact_mod_cast this

theorem faissOverlapBonus_python : faissOverlapBonus ["python"] ["python"] [] = 80 := by
  have e2 : (normTermSet ["python"] ++ normTermSet ([] : List String)).dedup
      = ["python"] := by decide
  unfold faissOverlapBonus
  rw [if_neg (by decide : ¬ (["python"] : List String) = [])]
  simp only [e2]
  norm_num
  decide

/-- Witness for the skill-bonus clause of `faiss_scores_floored_at_75` at a
concrete entry: expanded skill "python" matches the profile skill
"python". -/
theorem faiss_scores_floored_at_75_witness :
    (faissOverlapBonus ["python"] ["python"] [] > 0 ∨
      faissMandatoryBonus none ["python"] [] > 0) ∧
    80 ≤ faissEntryScore (1/2) ["python"] ["python"] [] none 0 :=
  ⟨Or.inl (by rw [faissOverlapBonus_python]; norm_num),
    (faiss_scores_floored_at_75 (1/2) ["python"] ["python"] [] none 0).2
      (Or.inl (by rw [faissOverlapBonus_python]; norm_num))⟩

end VectorStore


namespace Embeddings

open VectorStore

theorem cacheLookup_cacheUpdate (t : String) (v : Vec) (now : ℕ) :
    ∀ c : Cache, cacheHasKey c t = true →
      cacheLookup (cacheUpdate c t v now) t = some (v, now) := by
  intro c
  induction c with
  | nil => intro h; simp [cacheHasKey] at h
  | cons e es ih =>
    intro h
    by_cases he : e.key = t
    · simp [cacheUpdate, cacheLookup, he]
    · simp only [cacheHasKey, decide_eq_false he, Bool.false_or] at h
      simp [cacheUpdate, cacheLookup, he, ih h]

theorem cacheLookup_append_new (t : String) (v : Vec) (now : ℕ) :
    ∀ c : Cache, cacheHasKey c t = false →
      cacheLookup (c ++ [(⟨t, v, now⟩ : CacheEntry)]) t = some (v, now) := by
  intro c
  induction c with
  | nil => intro _; simp [cacheLookup]
  | cons e es ih =>
    intro h
    simp only [cacheHasKey, Bool.or_eq_false_iff, decide_eq_false_iff_not] at h
    simp [cacheLookup, h.1, ih h.2]

theorem cacheUpdate_length (t : String) (v : Vec) (now : ℕ) :
    ∀ c : Cache, (cacheUpdate c t v now).length = c.length := by
  intro c
  induction c with
  | nil => rfl
  | cons e es ih => simp [cacheUpdate, ih]

theorem cacheErase_length_le (t : String) :
    ∀ c : Cache, (cacheErase c t).length ≤ c.length := by
  intro c
  induction c with
  | nil => exact Nat.le_refl 0
  | cons e es ih =>
    by_cases he : e.key = t
    · simp only [cacheErase, he, if_true]
      exact Nat.le_succ_of_le ih
    · simp only [cacheErase, he, if_false, List.length_cons]
      omega

theorem cacheLookup_cacheEmbedding_self (c : Cache) (t : String) (v : Vec)
    (now : ℕ) (h : c.length < MAX_CACHE_ENTRIES) :
    cacheLookup (cacheEmbedding c t v now) t = some (v, now) := by
  unfold cacheEmbedding
  cases hk : cacheHasKey c t with
  | true =>
    have hlen : ¬ MAX_CACHE_ENTRIES < (cacheUpdate c t v now).length := by
      rw [cacheUpdate_length]; omega
    rw [if_pos rfl, if_neg hlen]
    exact cacheLookup_cacheUpdate t v now c hk
  | false =>
    have hlen : ¬ MAX_CACHE_ENTRIES < (c ++ [(⟨t, v, now⟩ : CacheEntry)]).length := by
      simp only [List.length_append, List.length_cons, List.length_nil]; omega
    simp only [Bool.false_eq_true, if_false]
    rw [if_neg hlen]
    exact cacheLookup_append_new t v now c hk

theorem embed_single_hit (prov : String → Vec) (dim : ℕ) (c : Cache)
    (t : String) (now : ℕ) (v : Vec) (c' : Cache)
    (hb : pyIsBlank t = false)
    (hget : getCachedEmbedding c t now = (some v, c')) :
    embed prov dim true c now [t] = ⟨[v], c', 0⟩ := by
  have hscan : embedScan true now c 0 [t] = ⟨[(0, v)], [], [], c'⟩ := by
    simp [embedScan, hb, hget]
  have hr : List.range 1 = [0] := rfl
  simp [embed, hscan, assocGet, hr]

theorem embed_single_miss (prov : String → Vec) (dim : ℕ) (c : Cache)
    (t : String) (now : ℕ) (c' : Cache)
    (hb : pyIsBlank t = false)
    (hget : getCachedEmbedding c t now = (none, c')) :
    embed prov dim true c now [t]
      = ⟨[prov t], cacheEmbedding c' t (prov t) now, 1⟩ := by
  have hscan : embedScan true now c 0 [t] = ⟨[], [t], [0], c'⟩ := by
    simp [embedScan, hb, hget]
  have hr : List.range 1 = [0] := rfl
  simp [embed, hscan, embedNewLoop, pyIndex, assocSet, assocHas, assocGet, hr]

/-- C6: a text present and unexpired in the embedding cache costs zero
provider calls on a subsequent `embed` call, which returns the cached
vector; and of two consecutive `embed([t])` calls on a non-blank text the
second performs no provider call and returns exactly the first call's
vectors. -/
theorem embed_cached_text_costs_no_provider_call :
    (∀ (prov : String → Vec) (dim : ℕ) (c : Cache) (t : String) (now : ℕ)
        (v : Vec) (ts : ℕ),
      pyIsBlank t = false → cacheLookup c t = some (v, ts) →
      now - ts < CACHE_TTL_HOURS →
      (embed prov dim true c now [t]).providerCalls = 0 ∧
        (embed prov dim true c now [t]).vectors = [v]) ∧
    (∀ (prov : String → Vec) (dim : ℕ) (c : Cache) (t : String) (now : ℕ),
      pyIsBlank t = false → c.length < MAX_CACHE_ENTRIES →
      (embed prov dim true (embed prov dim true c now [t]).cache now [t]).providerCalls = 0 ∧
        (embed prov dim true (embed prov dim true c now [t]).cache now [t]).vectors
          = (embed prov dim true c now [t]).vectors) := by
  constructor
  · intro prov dim c t now v ts hb hlk httl
    have hget : getCachedEmbedding c t now = (some v, c) := by
      simp [getCachedEmbedding, hlk, httl]
    rw [embed_single_hit prov dim c t now v c hb hget]
    exact ⟨rfl, rfl⟩
  · intro prov dim c t now hb hlen
    rcases hlk : cacheLookup c t with _ | ⟨v, ts⟩
    · have hget : getCachedEmbedding c t now = (none, c) := by
        simp [getCachedEmbedding, hlk]
      rw [embed_single_miss prov dim c t now c hb hget]
      have hlk2 : cacheLookup (cacheEmbedding c t (prov t) now) t
          = some (prov t, now) := cacheLookup_cacheEmbedding_self c t (prov t) now hlen
      have hget2 : getCachedEmbedding (cacheEmbedding c t (prov t) now) t now
          = (some (prov t), cacheEmbedding c t (prov t) now) := by
        simp [getCachedEmbedding, hlk2, CACHE_TTL_HOURS]
      rw [embed_single_hit prov dim _ t now (prov t) _ hb hget2]
      exact ⟨rfl, rfl⟩
    · by_cases httl : now - ts < CACHE_TTL_HOURS
      · have hget : getCachedEmbedding c t now = (some v, c) := by
          simp [getCachedEmbedding, hlk, httl]
        rw [embed_single_hit prov dim c t now v c hb hget]
        rw [embed_single_hit prov dim c t now v c hb hget]
        exact ⟨rfl, rfl⟩
      · have hget : getCachedEmbedding c t now = (none, cacheErase c t) := by
          simp [getCachedEmbedding, hlk, httl]
        rw [embed_single_miss prov dim c t now (cacheErase c t) hb hget]
        have hlen2 : (cacheErase c t).length < MAX_CACHE_ENTRIES :=
          lt_of_le_of_lt (cacheErase_length_le t c) hlen
        have hlk2 := cacheLookup_cacheEmbedding_self (cacheErase c t) t (prov t) now hlen2
        have hget2 : getCachedEmbedding (cacheEmbedding (cacheErase c t) t (prov t) now) t now
            = (some (prov t), cacheEmbedding (cacheErase c t) t (prov t) now) := by
          simp [getCachedEmbedding, hlk2, CACHE_TTL_HOURS]
        rw [embed_single_hit prov dim _ t now (prov t) _ hb hget2]
        exact ⟨rfl, rfl⟩

/-- Witness for `embed_cached_text_costs_no_provider_call`: the cache-hit
clause at a one-entry cache holding "X", and the consecutive-calls clause
starting from an empty cache. -/
theorem embed_cached_text_costs_no_provider_call_witness :
    ((embed (fun _ => [(7:ℚ)]) 1 true [⟨"X", [(5:ℚ)], 3⟩] 4 ["X"]).providerCalls = 0 ∧
      (embed (fun _ => [(7:ℚ)]) 1 true [⟨"X", [(5:ℚ)], 3⟩] 4 ["X"]).vectors = [[(5:ℚ)]]) ∧
    ((embed (fun _ => [(7:ℚ)]) 1 true
        (embed (fun _ => [(7:ℚ)]) 1 true [] 0 ["X"]).cache 0 ["X"]).providerCalls = 0 ∧
      (embed (fun _ => [(7:ℚ)]) 1 true
        (embed (fun _ => [(7:ℚ)]) 1 true [] 0 ["X"]).cache 0 ["X"]).vectors
          = (embed (fun _ => [(7:ℚ)]) 1 true [] 0 ["X"]).vectors) :=
  ⟨embed_cached_text_costs_no_provider_call.1 _ 1 _ "X" 4 [(5:ℚ)] 3
      (by decide) (by decide) (by decide),
    embed_cached_text_costs_no_provider_call.2 _ 1 [] "X" 0 (by decide) (by decide)⟩

/-- C5 (code bug): `embed(["A", "A"])` on an empty cache returns the zero
vector — not the embedding of "A" — at the second position, because
`text_indices[texts_to_embed.index(text)]` (embeddings.py line 150) maps
every duplicate of a cache-miss text onto its first position, leaving the
later positions unassigned; they then fall into the "Empty text - use zero
vector" branch of line 166. -/
theorem embed_duplicate_input_gets_zero_vector :
    (embed provA 1 true [] 0 ["A", "A"]).vectors = [[(1:ℚ)], [(0:ℚ)]] ∧
    provA "A" = [(1:ℚ)] := by
  constructor
  · decide
  · decide

end Embeddings

namespace VectorStore

/-- C7: `repair_missing_vectors` stops as soon as it has seen 5 consecutive
already-indexed profiles: with 5 such profiles at the head of the scan
order, the rest of the cursor (in particular a missing profile right after
them) is never examined and zero vectors are added. -/
theorem repair_stops_after_five_consecutive_existing
    (provider : String → Vec) (index : List Vec) (store : List (ℕ × String))
    (p1 p2 p3 p4 p5 : RepairProfile) (ys : List RepairProfile)
    (hp : ∀ p ∈ [p1, p2, p3, p4, p5], ∃ pid, p.profile_id = some pid ∧
      pid ≠ "" ∧ (getVectorStoreIds store).contains pid = true) :
    repair_missing_vectors provider index store ([p1, p2, p3, p4, p5] ++ ys)
      = ⟨index, store, getVectorStoreIds store, 5, 0, 5, true, 0, 5⟩ ∧
    repair_missing_vectors provider index store ([p1, p2, p3, p4, p5] ++ ys)
      = repair_missing_vectors provider index store [p1, p2, p3, p4, p5] := by
  obtain ⟨i1, e1, n1, c1⟩ := hp p1 (by simp)
  obtain ⟨i2, e2, n2, c2⟩ := hp p2 (by simp)
  obtain ⟨i3, e3, n3, c3⟩ := hp p3 (by simp)
  obtain ⟨i4, e4, n4, c4⟩ := hp p4 (by simp)
  obtain ⟨i5, e5, n5, c5⟩ := hp p5 (by simp)
  have m1 : i1 ∈ getVectorStoreIds store := by simpa using c1
  have m2 : i2 ∈ getVectorStoreIds store := by simpa using c2
  have m3 : i3 ∈ getVectorStoreIds store := by simpa using c3
  have m4 : i4 ∈ getVectorStoreIds store := by simpa using c4
  have m5 : i5 ∈ getVectorStoreIds store := by simpa using c5
  constructor
  · simp [repair_missing_vectors, repairGo, e1, e2, e3, e4, e5, n1, n2, n3, n4,
      n5, m1, m2, m3, m4, m5]
  · simp [repair_missing_vectors, repairGo, e1, e2, e3, e4, e5, n1, n2, n3, n4,
      n5, m1, m2, m3, m4, m5]

/-- Witness for `repair_stops_after_five_consecutive_existing`: five indexed
profiles a…e followed by one missing profile f. -/
theorem repair_stops_after_five_consecutive_existing_witness :
    repair_missing_vectors (fun _ => [(1:ℚ)]) [[(1:ℚ)], [(1:ℚ)], [(1:ℚ)], [(1:ℚ)], [(1:ℚ)]]
        [(0, "a"), (1, "b"), (2, "c"), (3, "d"), (4, "e")]
        ([⟨some "a", "t", "ct"⟩, ⟨some "b", "t", "ct"⟩, ⟨some "c", "t", "ct"⟩,
          ⟨some "d", "t", "ct"⟩, ⟨some "e", "t", "ct"⟩] ++ [⟨some "f", "t", "ct"⟩])
      = ⟨[[(1:ℚ)], [(1:ℚ)], [(1:ℚ)], [(1:ℚ)], [(1:ℚ)]],
          [(0, "a"), (1, "b"), (2, "c"), (3, "d"), (4, "e")],
          getVectorStoreIds [(0, "a"), (1, "b"), (2, "c"), (3, "d"), (4, "e")],
          5, 0, 5, true, 0, 5⟩ :=
  (repair_stops_after_five_consecutive_existing (fun _ => [(1:ℚ)])
    [[(1:ℚ)], [(1:ℚ)], [(1:ℚ)], [(1:ℚ)], [(1:ℚ)]]
    [(0, "a"), (1, "b"), (2, "c"), (3, "d"), (4, "e")]
    ⟨some "a", "t", "ct"⟩ ⟨some "b", "t", "ct"⟩ ⟨some "c", "t", "ct"⟩
    ⟨some "d", "t", "ct"⟩ ⟨some "e", "t", "ct"⟩ [⟨some "f", "t", "ct"⟩]
    (by decide)).1

end VectorStore

namespace VectorStore

/-- C9 counterexample: after `clear_all_caches()` the domain-embedding cache
and the similarity cache are not empty on a state where they held an entry,
contradicting "every cache layer is empty". -/
theorem clear_all_caches_leaves_similarity_cache :
    ((clear_all_caches ⟨[("h", [(1:ℚ)], 0)], [], [], none, [("web", [(2:ℚ)])],
        [(("a", "b"), (1:ℚ)/2)]⟩).1.similarity ≠ []) ∧
    ((clear_all_caches ⟨[("h", [(1:ℚ)], 0)], [], [], none, [("web", [(2:ℚ)])],
        [(("a", "b"), (1:ℚ)/2)]⟩).1.semanticDomain ≠ []) := by
  constructor
  · decide
  · decide

/-- C9 (amended): `clear_all_caches()` empties exactly the embedding,
expansion, skill-extraction and resume-skills caches and reports the number
of entries cleared from each of those four (plus their total); the
domain-embedding and similarity caches are left untouched. -/
theorem clear_all_caches_clears_four_layers (c : Caches) :
    (clear_all_caches c).1.embedding = [] ∧
    (clear_all_caches c).1.expansion = [] ∧
    (clear_all_caches c).1.skillExtraction = [] ∧
    (clear_all_caches c).1.resumeSkills = some [] ∧
    (clear_all_caches c).1.semanticDomain = c.semanticDomain ∧
    (clear_all_caches c).1.similarity = c.similarity ∧
    (clear_all_caches c).2.embedding_cache_cleared = c.embedding.length ∧
    (clear_all_caches c).2.expansion_cache_cleared = c.expansion.length ∧
    (clear_all_caches c).2.skill_extraction_cache_cleared
      = c.skillExtraction.length ∧
    (clear_all_caches c).2.resume_skills_cache_cleared
      = (match c.resumeSkills with | none => 0 | some l => l.length) ∧
    (clear_all_caches c).2.total_cleared
      = c.embedding.length + c.expansion.length + c.skillExtraction.length
        + (match c.resumeSkills with | none => 0 | some l => l.length) :=
  ⟨rfl, rfl, rfl, rfl, rfl, rfl, rfl, rfl, rfl, rfl, rfl⟩

end VectorStore

namespace VectorStore

/-- C8 counterexample: with "python" absent from the corpus vocabulary and
eight vocabulary terms produced by the semantic expansion phase (its output
always starts with the input skills, so this oracle value is reachable),
`expand_skills(["python"])` does not include "python": the validation pass
of lines 595–611 drops it and the ≥ min_terms result skips the padding
loop. -/
theorem expand_skills_python_counterexample :
    ¬ ("python" ∈ expand_skills
        ["django", "flask", "fastapi", "pandas", "numpy", "scipy", "pytorch", "keras"]
        none
        ["python", "django", "flask", "fastapi", "pandas", "numpy", "scipy",
          "pytorch", "keras"]
        [] none ["python"] 8 12) := by decide

/-- Value of the counterexample run: the output is exactly the eight
vocabulary terms, input excluded. -/
theorem expand_skills_python_value :
    expand_skills
        ["django", "flask", "fastapi", "pandas", "numpy", "scipy", "pytorch", "keras"]
        none
        ["python", "django", "flask", "fastapi", "pandas", "numpy", "scipy",
          "pytorch", "keras"]
        [] none ["python"] 8 12
      = ["django", "flask", "fastapi", "pandas", "numpy", "scipy", "pytorch", "keras"] := by
  decide

end VectorStore

namespace VectorStore

theorem finalResultGo_append : ∀ (l fr : List String), ∃ t, finalResultGo fr l = fr ++ t := by
  intro l
  induction l with
  | nil => intro fr; exact ⟨[], by simp [finalResultGo]⟩
  | cons s rest ih =>
    intro fr
    by_cases h : pyLower s ∈ fr.map pyLower
    · obtain ⟨t, ht⟩ := ih fr
      exact ⟨t, by simp [finalResultGo, h, ht]⟩
    · obtain ⟨t, ht⟩ := ih (fr ++ [pyLower s])
      exact ⟨pyLower s :: t, by simp [finalResultGo, h, ht]⟩

theorem validateStage_append (valid l₁ l₂ : List String) :
    validateStage valid (l₁ ++ l₂) = validateStage valid l₁ ++ validateStage valid l₂ := by
  simp [validateStage, List.filterMap_append]

theorem validateStage_inputs (valid : List String) : ∀ skills : List String,
    (∀ s ∈ skills, pyLowerStrip s = pyLower s) →
    (∀ s ∈ skills, skillValid valid (pyLowerStrip s) = true) →
    validateStage valid skills = skills.map pyLower := by
  intro skills
  induction skills with
  | nil => intro _ _; rfl
  | cons s rest ih =>
    intro h1 h2
    have hs1 := h1 s (by simp)
    have hs2 := h2 s (by simp)
    have hs3 : skillValid valid (pyLower s) = true := by rw [← hs1]; exact hs2
    simp only [validateStage, List.filterMap_cons, hs1, hs3, if_true, List.map_cons]
    congr 1
    exact ih (fun x hx => h1 x (by simp [hx])) (fun x hx => h2 x (by simp [hx]))

theorem dedupTakeGo_suffix (max_terms : ℕ) : ∀ (l acc : List String),
    ∃ t, dedupTakeGo max_terms acc l = acc ++ t := by
  intro l
  induction l with
  | nil => intro acc; exact ⟨[], by simp [dedupTakeGo]⟩
  | cons s rest ih =>
    intro acc
    by_cases hmem : s ∈ acc
    · obtain ⟨t, ht⟩ := ih acc
      refine ⟨t, ?_⟩
      simp only [dedupTakeGo]
      rw [if_pos hmem, ht]
    · by_cases hfull : max_terms ≤ (acc ++ [s]).length
      · refine ⟨[s], ?_⟩
        simp only [dedupTakeGo]
        rw [if_neg hmem, if_pos hfull]
      · obtain ⟨t, ht⟩ := ih (acc ++ [s])
        refine ⟨s :: t, ?_⟩
        simp only [dedupTakeGo]
        rw [if_neg hmem, if_neg hfull, ht]
        simp

theorem dedupTakeGo_keeps_nodup_head (max_terms : ℕ) :
    ∀ (l₁ l₂ acc : List String), (acc ++ l₁).Nodup →
      (acc ++ l₁).length ≤ max_terms →
      ∃ t, dedupTakeGo max_terms acc (l₁ ++ l₂) = (acc ++ l₁) ++ t := by
  intro l₁
  induction l₁ with
  | nil =>
    intro l₂ acc _ _
    obtain ⟨t, ht⟩ := dedupTakeGo_suffix max_terms l₂ acc
    exact ⟨t, by simpa using ht⟩
  | cons s rest ih =>
    intro l₂ acc hnd hlen
    rw [List.nodup_append] at hnd
    have hmem : s ∉ acc := fun hs => hnd.2.2 hs (by simp)
    by_cases hfull : max_terms ≤ (acc ++ [s]).length
    · have hrest : rest = [] := by
        simp only [List.length_append, List.length_cons, List.length_nil] at hlen hfull
        have : rest.length = 0 := by omega
        exact List.length_eq_zero.mp this
      subst hrest
      refine ⟨[], ?_⟩
      rw [List.cons_append]
      simp only [dedupTakeGo]
      rw [if_neg hmem, if_pos hfull]
      simp
    · have hnd2 : ((acc ++ [s]) ++ rest).Nodup := by
        rw [List.append_assoc, List.singleton_append, List.nodup_append]
        exact hnd
      have hlen2 : ((acc ++ [s]) ++ rest).length ≤ max_terms := by
        simpa [List.append_assoc] using hlen
      obtain ⟨t, ht⟩ := ih l₂ (acc ++ [s]) hnd2 hlen2
      refine ⟨t, ?_⟩
      rw [List.cons_append]
      simp only [dedupTakeGo]
      rw [if_neg hmem, if_neg hfull, ht]
      simp [List.append_assoc]

theorem padGo_of_mem (min_terms : ℕ) : ∀ (skills u : List String),
    (∀ s ∈ skills, pyLower s ∈ u) → padGo min_terms skills u = u := by
  intro skills
  induction skills with
  | nil => intro u _; rfl
  | cons s rest ih =>
    intro u h
    have hs := h s (by simp)
    simp only [padGo]
    rw [if_pos hs]
    exact ih u (fun x hx => h x (by simp [hx]))

end VectorStore

namespace VectorStore

theorem dedupTakeGo_length (max_terms : ℕ) : ∀ (l acc : List String),
    acc.Nodup → acc.length < max_terms →
    (dedupTakeGo max_terms acc l).length
      = min max_terms ((acc ++ l).dedup.length) := by
  intro l
  induction l with
  | nil =>
    intro acc hnd hlt
    simp only [dedupTakeGo, List.append_nil, List.Nodup.dedup hnd]
    exact (Nat.min_eq_right (Nat.le_of_lt hlt)).symm
  | cons s rest ih =>
    intro acc hnd hlt
    by_cases hs : s ∈ acc
    · have hset : (acc ++ s :: rest).toFinset = (acc ++ rest).toFinset := by
        ext a
        simp only [List.toFinset_append, Finset.mem_union, List.mem_toFinset,
          List.mem_cons]
        constructor
        · rintro (h | rfl | h)
          · exact Or.inl h
          · exact Or.inl hs
          · exact Or.inr h
        · rintro (h | h)
          · exact Or.inl h
          · exact Or.inr (Or.inr h)
      have hcard : (acc ++ s :: rest).dedup.length = (acc ++ rest).dedup.length := by
        rw [← List.card_toFinset, ← List.card_toFinset, hset]
      simp only [dedupTakeGo]
      rw [if_pos hs, ih acc hnd hlt, hcard]
    · have hnd2 : (acc ++ [s]).Nodup := by
        refine List.Nodup.append hnd (by simp) ?_
        intro a ha hb
        simp only [List.mem_singleton] at hb
        subst hb
        exact hs ha
      by_cases hfull : max_terms ≤ (acc ++ [s]).length
      · have hlen1 : (acc ++ [s]).length = acc.length + 1 := by simp
        have hmax : max_terms = acc.length + 1 := by
          rw [hlen1] at hfull; omega
        have hsub : (acc ++ [s]).toFinset ⊆ (acc ++ s :: rest).toFinset := by
          intro a ha
          simp only [List.toFinset_append, Finset.mem_union, List.mem_toFinset,
            List.mem_singleton, List.mem_cons] at ha ⊢
          rcases ha with h | rfl | h
          · exact Or.inl h
          · exact Or.inr (Or.inl rfl)
          · simp at h
        have hcard1 : (acc ++ [s]).toFinset.card = acc.length + 1 := by
          rw [List.card_toFinset, List.Nodup.dedup hnd2, hlen1]
        have hge : max_terms ≤ (acc ++ s :: rest).dedup.length := by
          rw [← List.card_toFinset]
          calc max_terms = (acc ++ [s]).toFinset.card := by rw [hcard1, hmax]
            _ ≤ _ := Finset.card_le_card hsub
        simp only [dedupTakeGo]
        rw [if_neg hs, if_pos hfull, hlen1, Nat.min_eq_left hge, hmax]
      · have hlt2 : (acc ++ [s]).length < max_terms := by
          simp only [List.length_append, List.length_cons, List.length_nil] at hfull ⊢
          omega
        have := ih (acc ++ [s]) hnd2 hlt2
        simp only [dedupTakeGo]
        rw [if_neg hs, if_neg hfull, this, List.append_assoc, List.singleton_append]

end VectorStore

namespace VectorStore

/-- C8 (amended): on a cache miss, when every input skill passes corpus
validation, the lowered input skills are pairwise distinct and number at
most `max_terms`, the output of `expand_skills` starts with the lowered
input terms (before all expansion terms), has at most `max_terms` entries,
and has at least `min_terms` entries whenever `min_terms ≤ max_terms` and
the validated candidate list is rich enough (at least `min_terms` distinct
entries). Input terms failing corpus validation can be dropped (see the
counterexample). -/
theorem expand_skills_corpus_valid_inputs
    (valid semanticResult graphExpanded : List String)
    (llmParts : Option (List String)) (skills : List String)
    (min_terms max_terms : ℕ)
    (hne : skills ≠ [])
    (hstrip : ∀ s ∈ skills, pyLowerStrip s = pyLower s)
    (hvalid : ∀ s ∈ skills, skillValid valid (pyLowerStrip s) = true)
    (hnodup : (skills.map pyLower).Nodup)
    (hlen : skills.length ≤ max_terms) :
    (∃ t, expand_skills valid none semanticResult graphExpanded llmParts skills
        min_terms max_terms = skills.map pyLower ++ t) ∧
    (expand_skills valid none semanticResult graphExpanded llmParts skills
        min_terms max_terms).length ≤ max_terms ∧
    (min_terms ≤ max_terms →
      min_terms ≤ (expandSkillsValidated valid semanticResult graphExpanded
        llmParts skills min_terms max_terms).dedup.length →
      min_terms ≤ (expand_skills valid none semanticResult graphExpanded
        llmParts skills min_terms max_terms).length) := by
  set V := expandSkillsValidated valid semanticResult graphExpanded llmParts
    skills min_terms max_terms with hVdef
  obtain ⟨ex0, hfr⟩ := finalResultGo_append
    (expandSkillsResult2 valid semanticResult graphExpanded llmParts
      min_terms max_terms) skills
  have hV : V = skills.map pyLower ++ validateStage valid ex0 := by
    rw [hVdef]
    unfold expandSkillsValidated
    rw [hfr, validateStage_append, validateStage_inputs valid skills hstrip hvalid]
  have hexp : expand_skills valid none semanticResult graphExpanded llmParts
      skills min_terms max_terms
      = (if (dedupTakeGo max_terms [] V).length < min_terms then
          padGo min_terms skills (dedupTakeGo max_terms [] V)
        else dedupTakeGo max_terms [] V).take max_terms := by
    unfold expand_skills
    rw [if_neg hne]
    rfl
  have hnodup2 : (([] : List String) ++ skills.map pyLower).Nodup := by
    simpa using hnodup
  have hlen2 : (([] : List String) ++ skills.map pyLower).length ≤ max_terms := by
    simpa using hlen
  obtain ⟨t, ht⟩ := dedupTakeGo_keeps_nodup_head max_terms (skills.map pyLower)
    (validateStage valid ex0) [] hnodup2 hlen2
  have hunique : dedupTakeGo max_terms [] V = skills.map pyLower ++ t := by
    rw [hV]
    simpa using ht
  have hmemu : ∀ s ∈ skills, pyLower s ∈ dedupTakeGo max_terms [] V := by
    intro s hs
    rw [hunique]
    exact List.mem_append_left _ (List.mem_map_of_mem _ hs)
  have hpad : (if (dedupTakeGo max_terms [] V).length < min_terms then
        padGo min_terms skills (dedupTakeGo max_terms [] V)
      else dedupTakeGo max_terms [] V) = dedupTakeGo max_terms [] V := by
    split_ifs with h
    · exact padGo_of_mem min_terms skills _ hmemu
    · rfl
  have hfinal : expand_skills valid none semanticResult graphExpanded llmParts
      skills min_terms max_terms = (skills.map pyLower ++ t).take max_terms := by
    rw [hexp, hpad, hunique]
  have hlenmap : (skills.map pyLower).length ≤ max_terms := by
    rw [List.length_map]; exact hlen
  refine ⟨?_, ?_, ?_⟩
  · refine ⟨t.take (max_terms - (skills.map pyLower).length), ?_⟩
    rw [hfinal, List.take_append_eq_append_take, List.take_of_length_le hlenmap]
  · rw [hfinal]
    exact List.length_take_le _ _
  · intro hmm hrich
    rcases Nat.eq_zero_or_pos min_terms with h0 | hpos
    · rw [h0]; exact Nat.zero_le _
    · have hmaxpos : 0 < max_terms := lt_of_lt_of_le hpos hmm
      have hlenu : (dedupTakeGo max_terms [] V).length
          = min max_terms (V.dedup.length) := by
        have := dedupTakeGo_length max_terms V [] List.nodup_nil (by simpa using hmaxpos)
        simpa using this
      have hminu : min_terms ≤ (dedupTakeGo max_terms [] V).length := by
        rw [hlenu]
        exact le_min hmm hrich
      rw [hexp, hpad, List.length_take]
      exact le_min hmm hminu

end VectorStore

namespace VectorStore

/-- Witness for `expand_skills_corpus_valid_inputs`: input "python" present
in the corpus vocabulary, `min_terms = 2`, `max_terms = 12`. -/
theorem expand_skills_corpus_valid_inputs_witness :
    (∃ t, expand_skills ["python", "django"] none ["python", "django"] [] none
        ["python"] 2 12 = ["python"].map pyLower ++ t) ∧
    (expand_skills ["python", "django"] none ["python", "django"] [] none
        ["python"] 2 12).length ≤ 12 ∧
    2 ≤ (expand_skills ["python", "django"] none ["python", "django"] [] none
        ["python"] 2 12).length :=
  have h := expand_skills_corpus_valid_inputs ["python", "django"]
    ["python", "django"] [] none ["python"] 2 12 (by decide) (by decide)
    (by decide) (by decide) (by decide)
  ⟨h.1, h.2.1, h.2.2 (by norm_num) (by decide)⟩

end VectorStore

namespace VectorStore

/-- C2 (code bug): a profile upsert producing two valid chunks appends two
vectors but writes only ONE side-table entry — for the last slot, with the
last chunk's metadata — because the `multi_vector_store[chunk_idx] =
chunk_meta` write of lines 2311–2312 sits outside the per-chunk loop of
lines 2300–2310; slot 0 is left with no external id. -/
theorem upsert_multi_vector_single_side_entry_eval :
    upsert_multi_vector (fun _ => [(1:ℚ)]) 1 "P1" "0123456789" true
        [("skills", [⟨"alpha", 0⟩]), ("experience", [⟨"beta", 0⟩])] ⟨[], []⟩
      = .ok ⟨[[(1:ℚ)], [(1:ℚ)]], [(1, ⟨"P1", "experience", 0⟩)]⟩ := by
  rfl

/-- The same upsert starting from a state where the profile already owned a
slot: the old slot is fully removed first (the rebuild branch of
`remove_multi_vector`), then the two new vectors are appended — with the
same single side-table entry. -/
theorem upsert_multi_vector_removes_then_adds_eval :
    upsert_multi_vector (fun _ => [(1:ℚ)]) 1 "P1" "0123456789" true
        [("skills", [⟨"alpha", 0⟩]), ("experience", [⟨"beta", 0⟩])]
        ⟨[[(2:ℚ)]], [(0, ⟨"P1", "skills", 0⟩)]⟩
      = .ok ⟨[[(1:ℚ)], [(1:ℚ)]], [(1, ⟨"P1", "experience", 0⟩)]⟩ := by
  rfl

end VectorStore

namespace VectorStore

theorem singleStoreLookup_update (k : ℕ) (m : StoredProfile) :
    ∀ st : List (ℕ × StoredProfile), singleStoreHasKey st k = true →
      singleStoreLookup (singleStoreUpdate st k m) k = some m := by
  intro st
  induction st with
  | nil => intro h; simp [singleStoreHasKey] at h
  | cons p rest ih =>
    intro h
    by_cases hp : p.1 = k
    · simp [singleStoreUpdate, singleStoreLookup, hp]
    · simp only [singleStoreHasKey, decide_eq_false hp, Bool.false_or] at h
      simp [singleStoreUpdate, singleStoreLookup, hp, ih h]

theorem singleStoreLookup_append (k : ℕ) (m : StoredProfile) :
    ∀ st : List (ℕ × StoredProfile), singleStoreHasKey st k = false →
      singleStoreLookup (st ++ [(k, m)]) k = some m := by
  intro st
  induction st with
  | nil => intro _; simp [singleStoreLookup]
  | cons p rest ih =>
    intro h
    simp only [singleStoreHasKey, Bool.or_eq_false_iff,
      decide_eq_false_iff_not] at h
    simp [singleStoreLookup, h.1, ih h.2]

theorem singleStoreLookup_set_self (st : List (ℕ × StoredProfile)) (k : ℕ)
    (m : StoredProfile) :
    singleStoreLookup (singleStoreSet st k m) k = some m := by
  unfold singleStoreSet
  cases hk : singleStoreHasKey st k with
  | true =>
    rw [if_pos rfl]
    exact singleStoreLookup_update k m st hk
  | false =>
    simp only [Bool.false_eq_true, if_false]
    exact singleStoreLookup_append k m st hk

/-- C3 counterexample: upserting profile "P1" with the 5-character raw text
"short" raises inside the multi-vector path, but `upsert_vector` swallows
that error and still appends the profile to the single-vector index, where
a FAISS search that returns its slot yields "P1" as a hit. -/
theorem upsert_vector_short_text_counterexample :
    upsert_vector (fun _ => [(1:ℚ)]) 1 "P1" "short" true
        [("raw_chunks", [⟨"short", 0⟩])] ⟨"P1", [], [], 0⟩ ⟨[], []⟩ ⟨0, []⟩
      = (⟨[], []⟩, ⟨1, [(0, ⟨"P1", [], [], 0⟩)]⟩) ∧
    (perform_faiss_search ⟨1, [(0, ⟨"P1", [], [], 0⟩)]⟩ [((0:ℤ), 1/2)] 10 none
        [] none).map Prod.fst = ["P1"] := by
  constructor
  · rfl
  · rfl

/-- C3 (amended): a stripped raw text under 10 characters makes
`upsert_multi_vector` raise, leaving the multi-vector index unchanged (so
multi-vector search cannot return the profile); but `upsert_vector`
catches the error and still adds the profile to the single-vector index,
whose search can return it. -/
theorem upsert_short_raw_text_single_index_only
    (provider : String → Vec) (dim : ℕ) (pid raw : String)
    (metaNonempty : Bool) (chunksDict : List (String × List Chunk))
    (meta : StoredProfile) (multi : MultiState) (single : SingleState)
    (hpid : pid ≠ "") (hraw : raw ≠ "") (hshort : (pyStrip raw).length < 10) :
    upsert_multi_vector provider dim pid raw metaNonempty chunksDict multi
      = .error "raw_text is too short" ∧
    (upsert_vector provider dim pid raw metaNonempty chunksDict meta multi
      single).1 = multi ∧
    ∃ slot, singleStoreLookup (upsert_vector provider dim pid raw metaNonempty
      chunksDict meta multi single).2.store slot = some meta := by
  have herr : upsert_multi_vector provider dim pid raw metaNonempty chunksDict
      multi = .error "raw_text is too short" := by
    unfold upsert_multi_vector
    rw [if_neg hpid, if_neg hraw, if_pos hshort]
  refine ⟨herr, ?_, ?_⟩
  · show (match upsert_multi_vector provider dim pid raw metaNonempty
        chunksDict multi with
      | .ok m => m
      | .error _ => multi) = multi
    rw [herr]
  · refine ⟨single.ntotal, ?_⟩
    have h2 : (upsert_vector provider dim pid raw metaNonempty chunksDict meta
        multi single).2.store
        = singleStoreSet (match findExistingIdx single.store pid with
          | some idx => singleStoreErase single.store idx
          | none => single.store) single.ntotal meta := rfl
    rw [h2]
    exact singleStoreLookup_set_self _ single.ntotal meta

/-- Witness for `upsert_short_raw_text_single_index_only` at profile "P1"
with raw text "short" on empty indexes. -/
theorem upsert_short_raw_text_single_index_only_witness :
    upsert_multi_vector (fun _ => [(1:ℚ)]) 1 "P1" "short" true
        [("raw_chunks", [⟨"short", 0⟩])] ⟨[], []⟩
      = .error "raw_text is too short" ∧
    (upsert_vector (fun _ => [(1:ℚ)]) 1 "P1" "short" true
        [("raw_chunks", [⟨"short", 0⟩])] ⟨"P1", [], [], 0⟩ ⟨[], []⟩
        ⟨0, []⟩).1 = ⟨[], []⟩ ∧
    ∃ slot, singleStoreLookup (upsert_vector (fun _ => [(1:ℚ)]) 1 "P1" "short"
        true [("raw_chunks", [⟨"short", 0⟩])] ⟨"P1", [], [], 0⟩ ⟨[], []⟩
        ⟨0, []⟩).2.store slot = some ⟨"P1", [], [], 0⟩ :=
  upsert_short_raw_text_single_index_only (fun _ => [(1:ℚ)]) 1 "P1" "short"
    true [("raw_chunks", [⟨"short", 0⟩])] ⟨"P1", [], [], 0⟩ ⟨[], []⟩ ⟨0, []⟩
    (by decide) (by decide) (by decide)

/-- C1 counterexample: with mandatory skill "python" and an empty prefilter
outcome, `query_multi_vector` returns zero results even though the
unfiltered search (oracle `constSearch`) would have returned a ranked
profile. -/
theorem query_multi_vector_empty_prefilter_counterexample :
    query_multi_vector (some "python") [] none 10 constSearch = [] ∧
    (constSearch none).take 10 ≠ [] := by
  constructor
  · rfl
  · decide

/-- C1 (amended): when a (truthy) mandatory skill is given and the
prefilter yields no candidate ids, `query_multi_vector` returns an empty
result list without searching at all; only with no mandatory skill does
the query proceed to the (prefilter-unconstrained) vector search. -/
theorem query_multi_vector_empty_prefilter_behavior
    (m : String) (dbIds : List String) (filterIds : Option (List String))
    (topK : ℕ) (searchFn : Option (List String) → List (String × ℚ))
    (hm : m ≠ "") (hdb : dbIds = []) :
    query_multi_vector (some m) dbIds filterIds topK searchFn = [] ∧
    query_multi_vector none dbIds filterIds topK searchFn
      = (searchFn filterIds).take topK := by
  constructor
  · simp [query_multi_vector, fetch_mandatory_skill_filter, hm, hdb,
      mandatoryTruthy]
  · simp [query_multi_vector, fetch_mandatory_skill_filter, mandatoryTruthy]

/-- Witness for `query_multi_vector_empty_prefilter_behavior` at mandatory
skill "python", empty prefilter outcome, and the `constSearch` oracle. -/
theorem query_multi_vector_empty_prefilter_behavior_witness :
    query_multi_vector (some "python") [] none 10 constSearch = [] ∧
    query_multi_vector none [] none 10 constSearch = (constSearch none).take 10 :=
  query_multi_vector_empty_prefilter_behavior "python" [] none 10 constSearch
    (by decide) (by decide)

end VectorStore
